import Mathlib

/-!
Verification development for the authentication session manager of the
dearai-mobile client (src/lib/jwt.ts, src/lib/constants.ts, src/lib/storage.ts,
src/lib/auth.ts, src/lib/api.ts, src/context/AuthContext.tsx).

The TypeScript source is shallowly embedded: pure helpers become Lean
functions; the interceptors become pure functions that also emit the ordered
list of side effects they perform; the process-wide refresh coordination
(module-level `isRefreshing` flag and `failedQueue` in api.ts, plus the
proactive timer callback in AuthContext.tsx) becomes a small-step transition
system whose steps are the suspension points (`await`) of the source, so that
interleavings of concurrent callers can be quantified over.

JavaScript numbers are modelled at integer precision (`Int`); `Date.now()` is
an explicit `now : Int` parameter (milliseconds).
-/

namespace DearAI

/-! ## JavaScript string primitives

`String.prototype.includes(sub)` and `String.prototype.split(".")`, modelled on
the character lists of the strings. -/

/-- `leadsWith s pat` is true when the list `s` starts with the list `pat`. -/
def leadsWith : List Char → List Char → Bool
  | _, [] => true
  | [], _ :: _ => false
  | c :: cs, p :: ps => c == p && leadsWith cs ps

/-- `containsSeq s pat` is true when `pat` occurs contiguously inside `s`;
this is the semantics of JavaScript `s.includes(pat)`. -/
def containsSeq : List Char → List Char → Bool
  | [], pat => pat.isEmpty
  | s@(_ :: tail), pat => leadsWith s pat || containsSeq tail pat

/-- JavaScript `s.includes(sub)`. -/
def jsIncludes (s : String) (sub : String) : Bool :=
  containsSeq s.data sub.data

/-- JavaScript `url?.includes(sub)` used under a truthiness test:
`undefined` yields `false`. -/
def jsIncludesOpt (url : Option String) (sub : String) : Bool :=
  match url with
  | none => false
  | some u => jsIncludes u sub

/-- JavaScript `s.split(".")` (for the non-empty separator `"."`):
`""` splits to `[""]`, `".."` splits to `["", "", ""]`. -/
def splitOnDot (cs : List Char) : List (List Char) :=
  match cs with
  | [] => [[]]
  | c :: rest =>
    let r := splitOnDot rest
    if c == '.' then [] :: r
    else
      match r with
      | [] => [[c]]
      | h :: t => (c :: h) :: t

theorem leadsWith_iff (pat s : List Char) :
    leadsWith s pat = true ↔ ∃ suf, s = pat ++ suf := by
  induction pat generalizing s with
  | nil => simp [leadsWith]
  | cons p ps ih =>
    cases s with
    | nil => simp [leadsWith]
    | cons c cs =>
      simp only [leadsWith, Bool.and_eq_true, beq_iff_eq, ih, List.cons_append,
        List.cons.injEq]
      constructor
      · rintro ⟨rfl, suf, rfl⟩; exact ⟨suf, rfl, rfl⟩
      · rintro ⟨suf, rfl, rfl⟩; exact ⟨rfl, suf, rfl⟩

theorem containsSeq_iff (s pat : List Char) :
    containsSeq s pat = true ↔ ∃ pre suf, s = pre ++ pat ++ suf := by
  induction s with
  | nil =>
    simp only [containsSeq, List.isEmpty_iff]
    constructor
    · rintro rfl; exact ⟨[], [], rfl⟩
    · rintro ⟨pre, suf, h⟩
      rcases List.append_eq_nil.mp h.symm with ⟨h1, h2⟩
      exact (List.append_eq_nil.mp h1).2
  | cons c cs ih =>
    simp only [containsSeq, Bool.or_eq_true, leadsWith_iff, ih]
    constructor
    · rintro (⟨suf, h⟩ | ⟨pre, suf, h⟩)
      · exact ⟨[], suf, by simpa using h⟩
      · exact ⟨c :: pre, suf, by simp [h]⟩
    · rintro ⟨pre, suf, h⟩
      cases pre with
      | nil => exact Or.inl ⟨suf, by simpa using h⟩
      | cons p pre =>
        right
        simp only [List.cons_append, List.cons.injEq] at h
        exact ⟨pre, suf, h.2⟩

theorem jsIncludes_iff (s sub : String) :
    jsIncludes s sub = true ↔ ∃ pre suf, s.data = pre ++ sub.data ++ suf :=
  containsSeq_iff s.data sub.data

/-! ## JSON values

Model of the values produced by JavaScript `JSON.parse`.  Numeric literals are
modelled at integer precision (JWT `exp` timestamps are integral); a fractional
literal makes the modelled parse fail instead of rounding. -/

inductive Json where
  | null
  | bool (b : Bool)
  | num (n : Int)
  | str (s : String)
  | arr (elems : List Json)
  | obj (members : List (String × Json))

/-- JavaScript truthiness test `!v` (true exactly when `v` is falsy). -/
def jsFalsy : Json → Bool
  | .null => true
  | .bool b => !b
  | .num n => n == 0
  | .str s => s.isEmpty
  | .arr _ => false
  | .obj _ => false

/-- Property access `obj[key]` on a parsed JSON value: `none` models
`undefined`.  `JSON.parse` keeps the LAST occurrence of a duplicated key, so
lookup prefers later members. -/
def jsonLookup (j : Json) (key : String) : Option Json :=
  match j with
  | .obj members => lookupLastMember members key
  | _ => none
where
  lookupLastMember : List (String × Json) → String → Option Json
    | [], _ => none
    | (k, v) :: rest, key =>
      match lookupLastMember rest key with
      | some v2 => some v2
      | none => if k == key then some v else none

/-! ## `atob` (base64 decoding to a byte list)

WHATWG forgiving-base64: ASCII whitespace is removed, up to two trailing `=`
are stripped when the length is a multiple of four, a remaining length of
1 mod 4 or any character outside the base64 alphabet is an error. -/

def isAsciiWhitespace (c : Char) : Bool :=
  [9, 10, 12, 13, 32].contains c.toNat

/-- The base64 alphabet, in sextet order. -/
def B64_ALPHABET : List Char :=
  ("ABCDEFGHIJKLMNOPQRSTUVWXYZabcdefghijklmnopqrstuvwxyz0123456789+/").data

/-- Sextet value of a base64 alphabet character. -/
def b64Val (c : Char) : Option Nat :=
  B64_ALPHABET.findIdx? (fun d => d == c)

/-- Drop one trailing `=` if present. -/
def stripOneEq (l : List Char) : List Char :=
  match l.reverse with
  | '=' :: rest => rest.reverse
  | _ => l

/-- Reassemble sextets (in groups of four) into bytes. -/
def b64Chunks : List Nat → Option (List Nat)
  | [] => some []
  | [_] => none
  | [a, b] => some [a * 4 + b / 16]
  | [a, b, c] => some [a * 4 + b / 16, b % 16 * 16 + c / 4]
  | a :: b :: c :: d :: rest =>
    match b64Chunks rest with
    | none => none
    | some bytes => some ((a * 4 + b / 16) :: (b % 16 * 16 + c / 4) :: (c % 4 * 64 + d) :: bytes)

/-- JavaScript `atob`, returning the decoded bytes (the code points of the
returned binary string). -/
def atobBytes (input : List Char) : Option (List Nat) :=
  let cleaned := input.filter (fun c => !isAsciiWhitespace c)
  let unpadded :=
    if cleaned.length % 4 == 0 then stripOneEq (stripOneEq cleaned) else cleaned
  if unpadded.length % 4 == 1 then none
  else
    match unpadded.mapM b64Val with
    | none => none
    | some sextets => b64Chunks sextets

/-! ## UTF-8 decoding

The source percent-encodes every byte of the `atob` result and feeds it to
`decodeURIComponent`; the composite effect is UTF-8 decoding of the byte
sequence, throwing `URIError` (here: `none`) on a malformed sequence. -/

def isUtf8Cont (b : Nat) : Bool := 128 ≤ b && b ≤ 191

def utf8DecodeFuel : Nat → List Nat → Option (List Char)
  | 0, _ => none
  | _ + 1, [] => some []
  | fuel + 1, b :: rest =>
    if b ≤ 127 then
      (utf8DecodeFuel fuel rest).map (Char.ofNat b :: ·)
    else if 194 ≤ b ∧ b ≤ 223 then
      match rest with
      | c1 :: rest2 =>
        if isUtf8Cont c1 then
          (utf8DecodeFuel fuel rest2).map (Char.ofNat ((b - 192) * 64 + (c1 - 128)) :: ·)
        else none
      | _ => none
    else if 224 ≤ b ∧ b ≤ 239 then
      match rest with
      | c1 :: c2 :: rest2 =>
        if isUtf8Cont c1 && isUtf8Cont c2 then
          let cp := (b - 224) * 4096 + (c1 - 128) * 64 + (c2 - 128)
          if 2048 ≤ cp ∧ ¬(55296 ≤ cp ∧ cp ≤ 57343) then
            (utf8DecodeFuel fuel rest2).map (Char.ofNat cp :: ·)
          else none
        else none
      | _ => none
    else if 240 ≤ b ∧ b ≤ 244 then
      match rest with
      | c1 :: c2 :: c3 :: rest2 =>
        if isUtf8Cont c1 && isUtf8Cont c2 && isUtf8Cont c3 then
          let cp := (b - 240) * 262144 + (c1 - 128) * 4096 + (c2 - 128) * 64 + (c3 - 128)
          if 65536 ≤ cp ∧ cp ≤ 1114111 then
            (utf8DecodeFuel fuel rest2).map (Char.ofNat cp :: ·)
          else none
        else none
      | _ => none
    else none

def utf8Decode (bytes : List Nat) : Option (List Char) :=
  utf8DecodeFuel (bytes.length + 1) bytes

/-! ## `JSON.parse` -/

def isJsonWsChar (c : Char) : Bool :=
  [9, 10, 13, 32].contains c.toNat

def skipWs (cs : List Char) : List Char :=
  match cs with
  | c :: rest => if isJsonWsChar c then skipWs rest else cs
  | [] => []

/-- The JSON two-character escapes, as escape-code and denoted-character
pairs (`\u` escapes are outside the model and make the parse fail). -/
def escCodes : List (Char × Char) :=
  [('"', '"'), ('\\', '\\'), ('/', '/'), ('b', Char.ofNat 8), ('f', Char.ofNat 12),
   ('n', Char.ofNat 10), ('r', Char.ofNat 13), ('t', Char.ofNat 9)]

/-- Translation of a JSON string escape character. -/
def escChar (c : Char) : Option Char :=
  match escCodes.find? (fun kv => kv.fst == c) with
  | some kv => some kv.snd
  | none => none

/-- Parse the body of a JSON string after the opening quote; returns the
string contents and the input after the closing quote. -/
def parseStrBody : Nat → List Char → Option (List Char × List Char)
  | 0, _ => none
  | _ + 1, [] => none
  | fuel + 1, c :: rest =>
    if c == '"' then some ([], rest)
    else if c == '\\' then
      match rest with
      | [] => none
      | e :: rest2 =>
        match escChar e with
        | none => none
        | some d => (parseStrBody fuel rest2).map (fun (cs, r) => (d :: cs, r))
    else (parseStrBody fuel rest).map (fun (cs, r) => (c :: cs, r))

def parseDigits : List Char → Option (Nat × List Char)
  | cs =>
    let digits := cs.takeWhile (fun c => 48 ≤ c.toNat && c.toNat ≤ 57)
    if digits.isEmpty then none
    else some (digits.foldl (fun acc c => acc * 10 + (c.toNat - 48)) 0, cs.drop digits.length)

/-- Parse a JSON numeric literal (integer precision; a fraction or exponent
part fails). -/
def parseJsonNum (cs : List Char) : Option (Int × List Char) :=
  let (neg, cs2) :=
    match cs with
    | c :: rest => if c == '-' then (true, rest) else (false, cs)
    | [] => (false, cs)
  match parseDigits cs2 with
  | none => none
  | some (n, rest) =>
    match rest with
    | c :: _ => if c == '.' || c == 'e' || c == 'E' then none
                else some (if neg then -(n : Int) else (n : Int), rest)
    | [] => some (if neg then -(n : Int) else (n : Int), rest)

/-- Consume the tail of a literal keyword. -/
def afterKeyword (kw : List Char) (cs : List Char) : Option (List Char) :=
  if leadsWith cs kw then some (cs.drop kw.length) else none

mutual

def parseJsonVal : Nat → List Char → Option (Json × List Char)
  | 0, _ => none
  | fuel + 1, cs =>
    match skipWs cs with
    | [] => none
    | c :: rest =>
      if c == '{' then parseJsonMembers fuel rest true
      else if c == '[' then parseJsonElems fuel rest true
      else if c == '"' then
        (parseStrBody (rest.length + 1) rest).map (fun (body, r) => (.str (String.mk body), r))
      else if c == 't' then
        match afterKeyword (("rue").data) rest with
        | some r => some (.bool true, r)
        | none => none
      else if c == 'f' then
        match afterKeyword (("alse").data) rest with
        | some r => some (.bool false, r)
        | none => none
      else if c == 'n' then
        match afterKeyword (("ull").data) rest with
        | some r => some (.null, r)
        | none => none
      else
        (parseJsonNum (c :: rest)).map (fun (n, r) => (.num n, r))

/-- Parse object members after `{` (`first` marks that no member has been
consumed yet, so `}` may follow immediately). -/
def parseJsonMembers : Nat → List Char → Bool → Option (Json × List Char)
  | 0, _, _ => none
  | fuel + 1, cs, first =>
    match skipWs cs with
    | [] => none
    | c :: rest =>
      if c == '}' ∧ first then some (.obj [], rest)
      else
        match skipWs (c :: rest) with
        | '"' :: afterQuote =>
          match parseStrBody (afterQuote.length + 1) afterQuote with
          | none => none
          | some (keyChars, afterKey) =>
            match skipWs afterKey with
            | ':' :: afterColon =>
              match parseJsonVal fuel afterColon with
              | none => none
              | some (v, afterVal) =>
                match skipWs afterVal with
                | ',' :: afterComma =>
                  match parseJsonMembers fuel afterComma false with
                  | some (.obj ms, r) => some (.obj ((String.mk keyChars, v) :: ms), r)
                  | _ => none
                | '}' :: afterBrace => some (.obj [(String.mk keyChars, v)], afterBrace)
                | _ => none
            | _ => none
        | _ => none

/-- Parse array elements after `[`. -/
def parseJsonElems : Nat → List Char → Bool → Option (Json × List Char)
  | 0, _, _ => none
  | fuel + 1, cs, first =>
    match skipWs cs with
    | [] => none
    | c :: rest =>
      if c == ']' ∧ first then some (.arr [], rest)
      else
        match parseJsonVal fuel (c :: rest) with
        | none => none
        | some (v, afterVal) =>
          match skipWs afterVal with
          | ',' :: afterComma =>
            match parseJsonElems fuel afterComma false with
            | some (.arr vs, r) => some (.arr (v :: vs), r)
            | _ => none
          | ']' :: afterBracket => some (.arr [v], afterBracket)
          | _ => none

end

/-- JavaScript `JSON.parse` on a character list: `none` models a thrown
`SyntaxError`. -/
def jsonParseChars (cs : List Char) : Option Json :=
  match parseJsonVal (cs.length + 1) cs with
  | none => none
  | some (v, rest) => if (skipWs rest).isEmpty then some v else none

/-! ## src/lib/jwt.ts -/

/-- The source's global replacement of dash by plus and underscore by slash
(base64url to base64). -/
def base64UrlToStd (c : Char) : Char :=
  if c == '-' then '+' else if c == '_' then '/' else c

/-- `decodeJWT` from src/lib/jwt.ts: split on `"."`, require exactly three
segments, base64url-decode the middle segment, UTF-8 decode the bytes (the
source routes them through percent-encoding and `decodeURIComponent`), then
`JSON.parse`.  Any thrown error is caught and becomes `none`; a parse result
of JSON `null` is returned as `null` and therefore also collapses to `none`. -/
def decodeJWT (token : String) : Option Json :=
  let parts := splitOnDot token.data
  if parts.length = 3 then
    match parts[1]? with
    | none => none
    | some payload =>
      let base64 := payload.map base64UrlToStd
      match atobBytes base64 with
      | none => none
      | some bytes =>
        match utf8Decode bytes with
        | none => none
        | some jsonChars =>
          match jsonParseChars jsonChars with
          | none => none
          | some .null => none
          | some v => some v
  else none

/-- `isTokenExpired` from src/lib/jwt.ts.  `bufferSeconds` defaults to 60 at
the call sites that omit it; `now` is `Date.now()` in milliseconds.  The
source's `!decoded || !decoded.exp` guard is JavaScript truthiness: a falsy
parse result or a falsy/absent `exp` (including `exp = 0`) yields `true`; a
non-numeric truthy `exp` makes the comparison NaN-false, yielding `false`. -/
def isTokenExpired (token : String) (bufferSeconds : Int) (now : Int) : Bool :=
  match decodeJWT token with
  | none => true
  | some decoded =>
    if jsFalsy decoded then true
    else
      match jsonLookup decoded ("exp") with
      | none => true
      | some expVal =>
        if jsFalsy expVal then true
        else
          match expVal with
          | .num e =>
            let expirationTime := e * 1000
            let bufferTime := bufferSeconds * 1000
            decide (now ≥ expirationTime - bufferTime)
          | _ => false

/-- `getTokenExpirationTime` from src/lib/jwt.ts: milliseconds until expiry,
0 when the token is invalid, lacks a truthy `exp`, or is already expired. -/
def getTokenExpirationTime (token : String) (now : Int) : Int :=
  match decodeJWT token with
  | none => 0
  | some decoded =>
    if jsFalsy decoded then 0
    else
      match jsonLookup decoded ("exp") with
      | none => 0
      | some expVal =>
        if jsFalsy expVal then 0
        else
          match expVal with
          | .num e =>
            let timeUntilExpiration := e * 1000 - now
            if timeUntilExpiration > 0 then timeUntilExpiration else 0
          | _ => 0

/-! ## src/lib/constants.ts -/

def PUBLIC_ENDPOINTS : List String :=
  [("/auth/login"), ("/auth/register"), ("/auth/refresh"), ("/health")]

def TOKEN_REFRESH_BUFFER_SECONDS : Int := 60

def MIN_REFRESH_DELAY_MS : Int := 10000

/-! ## src/lib/storage.ts and src/lib/auth.ts

The persisted key-value store restricted to the three auth keys
(`STORAGE_KEYS.ACCESS_TOKEN`, `STORAGE_KEYS.REFRESH_TOKEN`,
`STORAGE_KEYS.USER_DATA`); `none` models an absent key (delete semantics of
`setStorageItemAsync(key, null)`). -/

structure Storage where
  accessToken : Option String
  refreshToken : Option String
  userData : Option String
  deriving DecidableEq

/-- `clearAuthStorage` from src/lib/auth.ts: sets all three keys to null. -/
def clearAuthStorage (st : Storage) : Storage :=
  { st with accessToken := none, refreshToken := none, userData := none }

/-! ## src/lib/api.ts: pure parts -/

/-- The slice of `InternalAxiosRequestConfig` the interceptors read and
write: the request URL, the `Authorization` header, and the `_retry` marker
(absent on a fresh request, modelled as `false`). -/
structure ReqConfig where
  url : Option String
  authorization : Option String
  _retry : Bool
  deriving DecidableEq

/-- `isPublicEndpoint` from src/lib/api.ts: `!url` (undefined or empty) is
not public; otherwise test whether the URL `includes` any allow-listed
fragment. -/
def isPublicEndpoint (url : Option String) : Bool :=
  match url with
  | none => false
  | some u =>
    if u.isEmpty then false
    else PUBLIC_ENDPOINTS.any (fun endpoint => jsIncludes u endpoint)

/-- `refreshAccessToken` from src/lib/api.ts as a state transformer.
`resp` is the outcome of `axios.post(API_BASE_URL ++ "/auth/refresh")`:
`none` models a network error or a server rejection (a thrown `AxiosError`,
swallowed by the catch); `some (a, r)` is a successful `TokenResponse`.
Returns the new access token (or `null`) together with the updated storage. -/
def refreshAccessToken (st : Storage) (resp : Option (String × String)) :
    Option String × Storage :=
  match st.refreshToken with
  | none => (none, st)
  | some _ =>
    match resp with
    | none => (none, st)
    | some (access_token, newRefreshToken) =>
      (some access_token,
       { st with accessToken := some access_token, refreshToken := some newRefreshToken })

/-- Side effects performed by the request interceptor, in order. -/
inductive ReqAction where
  | proactiveRefresh
  deriving DecidableEq

/-- The request interceptor of `createApiClient` (src/lib/api.ts):
public endpoints pass through untouched; otherwise the stored access token is
read, refreshed through `handleTokenRefresh` when near expiry
(`refreshResult` is that coordinated refresh's outcome), and attached as a
bearer header when available. -/
def requestInterceptor (config : ReqConfig) (storedAccessToken : Option String)
    (now : Int) (refreshResult : Option String) : List ReqAction × ReqConfig :=
  if isPublicEndpoint config.url then ([], config)
  else
    match storedAccessToken with
    | none => ([], config)
    | some accessToken =>
      if isTokenExpired accessToken TOKEN_REFRESH_BUFFER_SECONDS now then
        match refreshResult with
        | some newTok =>
          ([.proactiveRefresh], { config with authorization := some (("Bearer ") ++ newTok) })
        | none => ([.proactiveRefresh], config)
      else ([], { config with authorization := some (("Bearer ") ++ accessToken) })

/-- Side effects performed by the response interceptor, in order. -/
inductive RespAction where
  | markRetry
  | refreshAttempt
  | retryRequest (cfg : ReqConfig)
  | clearAuth
  | authFailureCallback
  deriving DecidableEq

/-- What the response interceptor returns to the awaiting caller. -/
inductive RespOutcome where
  | rejectOriginal
  | retried (cfg : ReqConfig)
  deriving DecidableEq

/-- The response interceptor's error handler from `createApiClient`
(src/lib/api.ts).  `status` is `error.response.status`; `refreshResult` is
the outcome `handleTokenRefresh` would resolve with (it never rejects, since
`refreshAccessToken` catches every error and returns `null`).
`RespOutcome.rejectOriginal` means `Promise.reject(error)` with the original
error object. -/
def responseInterceptor (originalRequest : ReqConfig) (status : Nat)
    (refreshResult : Option String) : List RespAction × RespOutcome :=
  if status == 401 && !originalRequest._retry then
    if jsIncludesOpt originalRequest.url ("/auth/") then ([], .rejectOriginal)
    else
      let marked : ReqConfig := { originalRequest with _retry := true }
      match refreshResult with
      | some newToken =>
        let retriedCfg : ReqConfig :=
          { marked with authorization := some (("Bearer ") ++ newToken) }
        ([.markRetry, .refreshAttempt, .retryRequest retriedCfg], .retried retriedCfg)
      | none =>
        ([.markRetry, .refreshAttempt, .clearAuth, .authFailureCallback], .rejectOriginal)
  else ([], .rejectOriginal)

/-! ## src/context/AuthContext.tsx: proactive scheduler and sign-out -/

/-- Observable timer operations, in order of execution. -/
inductive TimerAction where
  | cancel
  | arm (delayMs : Int)
  deriving DecidableEq

/-- `scheduleTokenRefresh` from AuthContext.tsx: clear any existing timer,
then arm a one-shot timer for `max(timeUntilExpiry - 60000, 10000)`
milliseconds.  The state is the pending timer's delay (`refreshTimerRef`);
the returned action list records the cancel-before-arm order. -/
def scheduleTokenRefresh (refreshTimer : Option Int) (token : String) (now : Int) :
    List TimerAction × Option Int :=
  let cancelActs : List TimerAction :=
    match refreshTimer with
    | some _ => [.cancel]
    | none => []
  let timeUntilExpiry := getTokenExpirationTime token now
  let refreshIn := max (timeUntilExpiry - 60000) 10000
  (cancelActs ++ [.arm refreshIn], some refreshIn)

/-- In-memory and persisted session state owned by `AuthProvider`.
`stateUserEmail` is the React state of `useStorageState(USER_EMAIL)`; its
persisted counterpart is outside the three-key auth storage. -/
structure AuthState where
  refreshTimer : Option Int
  storage : Storage
  stateAccessToken : Option String
  stateRefreshToken : Option String
  stateUserEmail : Option String
  deriving DecidableEq

/-- `signOut` from AuthContext.tsx.  `logoutFails` says whether the backend
`POST /auth/logout` (attempted only when a refresh token is stored) throws;
the catch block absorbs the failure either way.  Returns the final state and
whether the server-side revocation actually succeeded (best-effort). -/
def signOut (st : AuthState) (logoutFails : Bool) : AuthState × Bool :=
  let afterTimer : AuthState := { st with refreshTimer := none }
  let logoutAttempted := afterTimer.storage.refreshToken.isSome
  let revoked := logoutAttempted && !logoutFails
  let afterClear : AuthState := { afterTimer with storage := clearAuthStorage afterTimer.storage }
  ({ afterClear with
      stateAccessToken := none, stateRefreshToken := none, stateUserEmail := none,
      storage := { afterClear.storage with accessToken := none, refreshToken := none } },
   revoked)

/-! ## Refresh coordination as a transition system

`handleTokenRefresh` (src/lib/api.ts lines 117-136) guards the refresh with
the module-level `isRefreshing` flag and `failedQueue`.  The flag check and
its `isRefreshing = true` transition are synchronous (no `await` between
them), so they form one atomic step; every `await` in `refreshAccessToken`
(storage read, the POST, the token writes) is a suspension point at which
other callers may run.  The proactive scheduler's timer callback
(AuthContext.tsx lines 93-125) does NOT go through `handleTokenRefresh`: it
reads the refresh token itself and issues its own `api.post("/auth/refresh")`
(which both interceptors pass through, the URL being public and containing
the `/auth/` fragment).

A task is either a `handleTokenRefresh` caller (the request interceptor's
proactive refresh or the response interceptor's 401 handler) or the
scheduler's timer callback. -/

inductive TaskState where
  /-- about to execute `handleTokenRefresh`'s `isRefreshing` check. -/
  | start
  /-- pushed onto `failedQueue`, awaiting the in-flight refresh's outcome. -/
  | waiting
  /-- leader inside `refreshAccessToken`: awaiting the refresh-token read. -/
  | lReadWait
  /-- leader: `POST /auth/refresh` round-trip in flight. -/
  | lRespWait
  /-- leader: awaiting `setStorageItemAsync` of the rotated tokens. -/
  | lWriteWait (access_token : String) (refresh_token : String)
  /-- leader: `refreshAccessToken` resolved; `processQueue` and the
  `finally { isRefreshing = false }` not yet run. -/
  | lFin (result : Option String)
  /-- leader returned `result` from `handleTokenRefresh`. -/
  | doneLeader (result : Option String)
  /-- queued waiter resolved with `result`. -/
  | done (result : Option String)
  /-- scheduler: timer fired, callback about to run. -/
  | sStart
  /-- scheduler: awaiting the refresh-token read (and the dynamic import). -/
  | sReadWait
  /-- scheduler: its own `POST /auth/refresh` round-trip in flight. -/
  | sRespWait
  /-- scheduler: callback finished (success, missing token, or caught error). -/
  | sDone
  deriving DecidableEq

def TaskState.isActiveLeader : TaskState → Bool
  | .lReadWait | .lRespWait | .lWriteWait _ _ | .lFin _ => true
  | _ => false

def TaskState.isPostedLeader : TaskState → Bool
  | .lRespWait | .lWriteWait _ _ | .lFin _ | .doneLeader _ => true
  | _ => false

def TaskState.isSchedulerTask : TaskState → Bool
  | .sStart | .sReadWait | .sRespWait | .sDone => true
  | _ => false

/-- The value a finished `handleTokenRefresh` caller observed. -/
def TaskState.result? : TaskState → Option (Option String)
  | .done r => some r
  | .doneLeader r => some r
  | _ => none

/-- Process-wide state: the api.ts module globals, the persisted tokens, and
the task pool.  `posts` counts initiated `POST /auth/refresh` round-trips
and `elections` counts how many callers found `isRefreshing` unset and
started a refresh themselves (instrumentation; neither influences steps). -/
structure Config where
  isRefreshing : Bool
  failedQueue : List Nat
  storageAccess : Option String
  storageRefresh : Option String
  posts : Nat
  elections : Nat
  tasks : List TaskState
  deriving DecidableEq

/-- One scheduler decision: which task runs up to its next suspension point,
and, for a step that completes a network round-trip, the server's answer
(`none` models a thrown error: network failure or server rejection). -/
inductive StepCmd where
  | start (tid : Nat)
  | readDone (tid : Nat)
  | respDone (tid : Nat) (resp : Option (String × String))
  | writeDone (tid : Nat)
  | finDone (tid : Nat)
  | sStartStep (tid : Nat)
  | sReadDone (tid : Nat)
  | sRespDone (tid : Nat) (resp : Option (String × String))

/-- Small-step interpreter; `none` when the command does not apply in the
current state. -/
def applyStep (c : Config) (s : StepCmd) : Option Config :=
  match s with
  | .start tid =>
    match c.tasks[tid]? with
    | some .start =>
      if c.isRefreshing then
        -- already Refreshing: push onto failedQueue and suspend
        some { c with failedQueue := c.failedQueue ++ [tid],
                      tasks := c.tasks.set tid .waiting }
      else
        -- Idle: isRefreshing = true, enter refreshAccessToken (atomic with the check)
        some { c with isRefreshing := true, elections := c.elections + 1,
                      tasks := c.tasks.set tid .lReadWait }
    | _ => none
  | .readDone tid =>
    match c.tasks[tid]? with
    | some .lReadWait =>
      match c.storageRefresh with
      | none => some { c with tasks := c.tasks.set tid (.lFin none) }
      | some _ => some { c with posts := c.posts + 1, tasks := c.tasks.set tid .lRespWait }
    | _ => none
  | .respDone tid resp =>
    match c.tasks[tid]? with
    | some .lRespWait =>
      match resp with
      | none => some { c with tasks := c.tasks.set tid (.lFin none) }
      | some (a, r) => some { c with tasks := c.tasks.set tid (.lWriteWait a r) }
    | _ => none
  | .writeDone tid =>
    match c.tasks[tid]? with
    | some (.lWriteWait a r) =>
      some { c with storageAccess := some a, storageRefresh := some r,
                    tasks := c.tasks.set tid (.lFin (some a)) }
    | _ => none
  | .finDone tid =>
    match c.tasks[tid]? with
    | some (.lFin res) =>
      -- processQueue(null, res); failedQueue = []; finally isRefreshing = false
      let resolved := c.failedQueue.foldl (fun ts j => ts.set j (.done res)) c.tasks
      some { c with isRefreshing := false, failedQueue := [],
                    tasks := resolved.set tid (.doneLeader res) }
    | _ => none
  | .sStartStep tid =>
    match c.tasks[tid]? with
    | some .sStart => some { c with tasks := c.tasks.set tid .sReadWait }
    | _ => none
  | .sReadDone tid =>
    match c.tasks[tid]? with
    | some .sReadWait =>
      match c.storageRefresh with
      | none => some { c with tasks := c.tasks.set tid .sDone }
      | some _ => some { c with posts := c.posts + 1, tasks := c.tasks.set tid .sRespWait }
    | _ => none
  | .sRespDone tid resp =>
    match c.tasks[tid]? with
    | some .sRespWait =>
      match resp with
      | none => some { c with tasks := c.tasks.set tid .sDone }
      | some (a, r) => some { c with storageAccess := some a, storageRefresh := some r,
                                     tasks := c.tasks.set tid .sDone }
    | _ => none

/-- Run a schedule of steps. -/
def run (c : Config) : List StepCmd → Option Config
  | [] => some c
  | s :: rest =>
    match applyStep c s with
    | none => none
    | some next => run next rest

/-- Initial state for `n` concurrent `handleTokenRefresh` callers with both
tokens persisted. -/
def initConfig (n : Nat) (access0 refresh0 : String) : Config :=
  { isRefreshing := false, failedQueue := [], storageAccess := some access0,
    storageRefresh := some refresh0, posts := 0, elections := 0,
    tasks := List.replicate n .start }

/-! ### Invariant of coordinator-only runs -/

/-- Task `i` of the pool `ts` is currently inside `refreshAccessToken` as the
leader of an in-flight coordinated refresh. -/
def activeIn (ts : List TaskState) (i : Nat) : Prop :=
  ∃ t, ts[i]? = some t ∧ t.isActiveLeader = true

theorem activeIn_set_ne {ts : List TaskState} {tid i : Nat} (h : tid ≠ i)
    (a : TaskState) : activeIn (ts.set tid a) i ↔ activeIn ts i := by
  unfold activeIn
  rw [List.getElem?_set_ne h]

theorem activeIn_set_self {ts : List TaskState} {tid : Nat} (h : tid < ts.length)
    (a : TaskState) : activeIn (ts.set tid a) tid ↔ a.isActiveLeader = true := by
  unfold activeIn
  simp [List.getElem?_set_self h]

/-- Effect of `processQueue` (a fold of `List.set` over the queue) on the
task pool, pointwise. -/
theorem foldl_resolve_getElem (q : List Nat) (l : List TaskState) (res : Option String)
    (j : Nat) :
    (q.foldl (fun ts k => ts.set k (TaskState.done res)) l)[j]? =
      if j ∈ q ∧ j < l.length then some (.done res) else l[j]? := by
  induction q generalizing l with
  | nil => simp
  | cons k q ih =>
    simp only [List.foldl_cons]
    rw [ih, List.length_set, List.getElem?_set]
    by_cases hjl : j < l.length
    · by_cases hjq : j ∈ q
      · simp [List.mem_cons, hjq, hjl]
      · by_cases hkj : j = k
        · subst hkj
          simp [List.mem_cons, hjq, hjl]
        · simp [List.mem_cons, hjq, hjl, hkj, Ne.symm hkj]
    · have hjn : l[j]? = none := List.getElem?_eq_none (by omega)
      by_cases hkj : j = k
      · subst hkj
        simp [List.mem_cons, hjl, hjn]
      · simp [List.mem_cons, hjl, hjn, Ne.symm hkj]

/-- Invariant of every run that starts from `initConfig`: the coordinator's
mutual exclusion, the bookkeeping tying `posts` and the task phases to the
`elections` count, and the agreement of all observed results within a single
election. -/
structure Inv (c : Config) : Prop where
  storageSome : c.storageRefresh.isSome = true
  noSched : ∀ (i : Nat) (t : TaskState), c.tasks[i]? = some t → t.isSchedulerTask = false
  queueWaiting : ∀ j ∈ c.failedQueue, c.tasks[j]? = some .waiting
  mutex : ∀ i j, activeIn c.tasks i → activeIn c.tasks j → i = j
  refreshingIff : c.isRefreshing = true ↔ ∃ i, activeIn c.tasks i
  zeroElections : c.elections = 0 →
    (∀ (i : Nat) (t : TaskState), c.tasks[i]? = some t → t = .start) ∧ c.posts = 0
  oneElection : c.elections = 1 → ∃ (l0 : Nat) (t0 : TaskState), c.tasks[l0]? = some t0 ∧
    (t0.isActiveLeader = true ∨ ∃ r, t0 = .doneLeader r) ∧
    (∀ (j : Nat) (t : TaskState), j ≠ l0 → c.tasks[j]? = some t →
      t = .start ∨ t = .waiting ∨ ∃ r, t = .done r) ∧
    ((t0 = .lReadWait ∧ c.posts = 0) ∨ (t0.isPostedLeader = true ∧ c.posts = 1)) ∧
    (∀ (j : Nat) (r : Option String), j ≠ l0 → c.tasks[j]? = some (.done r) →
      ∃ r0, t0 = .doneLeader r0 ∧ r = r0)

theorem inv_initConfig (n : Nat) (a0 r0 : String) : Inv (initConfig n a0 r0) := by
  have htask : ∀ (i : Nat) (t : TaskState),
      (initConfig n a0 r0).tasks[i]? = some t → t = .start := by
    intro i t h
    simp only [initConfig] at h
    rw [List.getElem?_replicate] at h
    split at h
    · cases h; rfl
    · cases h
  refine ⟨rfl, ?_, ?_, ?_, ?_, ?_, ?_⟩
  · intro i t h
    rw [htask i t h]
    rfl
  · intro j hj
    simp [initConfig] at hj
  · rintro i j ⟨t, ht, hact⟩ _
    rw [htask i t ht] at hact
    cases hact
  · constructor
    · intro h
      simp [initConfig] at h
    · rintro ⟨i, t, ht, hact⟩
      rw [htask i t ht] at hact
      cases hact
  · exact fun _ => ⟨htask, rfl⟩
  · intro h
    simp [initConfig] at h

theorem getElem_some_lt {α : Type} {l : List α} {i : Nat} {a : α}
    (h : l[i]? = some a) : i < l.length := by
  obtain ⟨h1, _⟩ := List.getElem?_eq_some_iff.mp h
  exact h1

/-- Reading an index of a pool after a single `set`. -/
theorem set_getElem_cases {α : Type} {l : List α} {tid i : Nat} {a b : α}
    (h : (l.set tid a)[i]? = some b) :
    (i = tid ∧ b = a) ∨ (i ≠ tid ∧ l[i]? = some b) := by
  by_cases hti : tid = i
  · subst hti
    left
    refine ⟨rfl, ?_⟩
    have hlt : tid < l.length := by
      have := getElem_some_lt h
      simpa using this
    rw [List.getElem?_set_self hlt] at h
    exact (Option.some.inj h).symm
  · right
    refine ⟨fun he => hti he.symm, ?_⟩
    rwa [List.getElem?_set_ne hti] at h

/-- Preservation: a caller finds `isRefreshing` set and joins the queue. -/
theorem inv_start_join {c : Config} {tid : Nat} (hinv : Inv c)
    (htid : c.tasks[tid]? = some .start) (hir : c.isRefreshing = true) :
    Inv { c with failedQueue := c.failedQueue ++ [tid],
                 tasks := c.tasks.set tid .waiting } := by
  have hlt : tid < c.tasks.length := getElem_some_lt htid
  have htidnq : tid ∉ c.failedQueue := by
    intro hmem
    have hw := hinv.queueWaiting tid hmem
    rw [htid] at hw
    cases hw
  have act_old : ∀ i, activeIn (c.tasks.set tid .waiting) i → activeIn c.tasks i := by
    rintro i ⟨t, h, hact⟩
    rcases set_getElem_cases h with ⟨_, rfl⟩ | ⟨_, hold⟩
    · cases hact
    · exact ⟨t, hold, hact⟩
  refine ⟨hinv.storageSome, ?_, ?_, ?_, ?_, ?_, ?_⟩
  · intro i t h
    rcases set_getElem_cases h with ⟨_, rfl⟩ | ⟨_, hold⟩
    · rfl
    · exact hinv.noSched i t hold
  · intro j hj
    rcases List.mem_append.mp hj with hj | hj
    · have hw := hinv.queueWaiting j hj
      have hne : tid ≠ j := fun he => htidnq (he ▸ hj)
      rw [List.getElem?_set_ne hne]
      exact hw
    · have : j = tid := by simpa using hj
      subst this
      exact List.getElem?_set_self hlt
  · exact fun i j hi hj => hinv.mutex i j (act_old i hi) (act_old j hj)
  · constructor
    · intro _
      obtain ⟨i, t, hold, hact⟩ := hinv.refreshingIff.mp hir
      have hne : tid ≠ i := by
        intro he
        subst he
        rw [htid] at hold
        cases hold
        cases hact
      exact ⟨i, t, by rw [List.getElem?_set_ne hne]; exact hold, hact⟩
    · intro _
      exact hir
  · intro h0
    exfalso
    obtain ⟨hall, _⟩ := hinv.zeroElections h0
    obtain ⟨i, t, hold, hact⟩ := hinv.refreshingIff.mp hir
    rw [hall i t hold] at hact
    cases hact
  · intro h1
    obtain ⟨l0, t0, hl0, hlead, hothers, hposts, hdone⟩ := hinv.oneElection h1
    have hne : l0 ≠ tid := by
      intro he
      subst he
      rw [htid] at hl0
      cases hl0
      rcases hlead with hact | ⟨r, hr⟩
      · cases hact
      · cases hr
    refine ⟨l0, t0, ?_, hlead, ?_, hposts, ?_⟩
    · rw [List.getElem?_set_ne (fun he => hne he.symm)]
      exact hl0
    · intro j t hjne h
      rcases set_getElem_cases h with ⟨_, rfl⟩ | ⟨_, hold⟩
      · exact Or.inr (Or.inl rfl)
      · exact hothers j t hjne hold
    · intro j r hjne h
      rcases set_getElem_cases h with ⟨_, habs⟩ | ⟨_, hold⟩
      · cases habs
      · exact hdone j r hjne hold

/-- Preservation: a caller finds `isRefreshing` unset, sets it, and becomes
the leader of a new refresh. -/
theorem inv_start_lead {c : Config} {tid : Nat} (hinv : Inv c)
    (htid : c.tasks[tid]? = some .start) (hir : ¬c.isRefreshing = true) :
    Inv { c with isRefreshing := true, elections := c.elections + 1,
                 tasks := c.tasks.set tid .lReadWait } := by
  have hlt : tid < c.tasks.length := getElem_some_lt htid
  have hnoact : ∀ i, ¬activeIn c.tasks i := by
    intro i hi
    exact hir (hinv.refreshingIff.mpr ⟨i, hi⟩)
  refine ⟨hinv.storageSome, ?_, ?_, ?_, ?_, ?_, ?_⟩
  · intro i t h
    rcases set_getElem_cases h with ⟨_, rfl⟩ | ⟨_, hold⟩
    · rfl
    · exact hinv.noSched i t hold
  · intro j hj
    have hw := hinv.queueWaiting j hj
    have hne : tid ≠ j := by
      intro he
      subst he
      rw [htid] at hw
      cases hw
    rw [List.getElem?_set_ne hne]
    exact hw
  · have honly : ∀ i, activeIn (c.tasks.set tid .lReadWait) i → i = tid := by
      rintro i ⟨t, h, hact⟩
      rcases set_getElem_cases h with ⟨he, _⟩ | ⟨_, hold⟩
      · exact he
      · exact absurd ⟨t, hold, hact⟩ (hnoact i)
    exact fun i j hi hj => (honly i hi).trans (honly j hj).symm
  · constructor
    · intro _
      exact ⟨tid, .lReadWait, List.getElem?_set_self hlt, rfl⟩
    · intro _
      rfl
  · intro h0
    exact absurd h0 (Nat.succ_ne_zero _)
  · intro h1
    have h1' : c.elections + 1 = 1 := h1
    have h0 : c.elections = 0 := by omega
    obtain ⟨hall, hposts0⟩ := hinv.zeroElections h0
    refine ⟨tid, .lReadWait, List.getElem?_set_self hlt, Or.inl rfl, ?_,
      Or.inl ⟨rfl, hposts0⟩, ?_⟩
    · intro j t hjne h
      rcases set_getElem_cases h with ⟨he, _⟩ | ⟨_, hold⟩
      · exact absurd he hjne
      · exact Or.inl (hall j t hold)
    · intro j r hjne h
      rcases set_getElem_cases h with ⟨he, _⟩ | ⟨_, hold⟩
      · exact absurd he hjne
      · exact absurd (hall j _ hold) (by intro habs; cases habs)

/-- In a single-election state, an active leader task is THE leader: every
other task is pristine, queued, or (impossibly, while the leader is still
active) resolved. -/
theorem oneElection_leader {c : Config} (hinv : Inv c) (h1 : c.elections = 1)
    {tid : Nat} {t_old : TaskState} (htid : c.tasks[tid]? = some t_old)
    (hact : t_old.isActiveLeader = true) :
    (∀ (j : Nat) (t : TaskState), j ≠ tid → c.tasks[j]? = some t →
      t = .start ∨ t = .waiting ∨ ∃ r, t = .done r) ∧
    ((t_old = .lReadWait ∧ c.posts = 0) ∨ (t_old.isPostedLeader = true ∧ c.posts = 1)) ∧
    (∀ (j : Nat) (r : Option String), j ≠ tid → c.tasks[j]? = some (.done r) → False) := by
  obtain ⟨l0, t0, hl0, _, hothers, hposts, hdone⟩ := hinv.oneElection h1
  have hl0tid : l0 = tid := by
    by_contra hne
    rcases hothers tid t_old (fun he => hne he.symm) htid with h | h | ⟨r, h⟩ <;>
      (subst h; cases hact)
  subst hl0tid
  rw [htid] at hl0
  cases hl0
  refine ⟨hothers, hposts, ?_⟩
  intro j r hjne h
  obtain ⟨r0, habs, _⟩ := hdone j r hjne h
  subst habs
  cases hact

/-- Preservation of the fields common to every step that replaces the active
leader's phase `t_old` by another active, non-scheduler phase `t_new`,
leaving `isRefreshing`, the queue and `elections` alone. -/
theorem inv_leader_move {c : Config} {tid : Nat} {t_old : TaskState} (t_new : TaskState)
    (hinv : Inv c) (htid : c.tasks[tid]? = some t_old)
    (hact_old : t_old.isActiveLeader = true) (hact_new : t_new.isActiveLeader = true)
    (hns_new : t_new.isSchedulerTask = false) :
    (∀ (i : Nat) (t : TaskState), (c.tasks.set tid t_new)[i]? = some t →
        t.isSchedulerTask = false) ∧
    (∀ j ∈ c.failedQueue, (c.tasks.set tid t_new)[j]? = some .waiting) ∧
    (∀ i j, activeIn (c.tasks.set tid t_new) i → activeIn (c.tasks.set tid t_new) j →
        i = j) ∧
    (c.isRefreshing = true ↔ ∃ i, activeIn (c.tasks.set tid t_new) i) := by
  have hlt : tid < c.tasks.length := getElem_some_lt htid
  have act_old : ∀ i, activeIn (c.tasks.set tid t_new) i → activeIn c.tasks i := by
    rintro i ⟨t, h, hact⟩
    rcases set_getElem_cases h with ⟨he, rfl⟩ | ⟨_, hold⟩
    · exact he ▸ ⟨t_old, htid, hact_old⟩
    · exact ⟨t, hold, hact⟩
  refine ⟨?_, ?_, ?_, ?_⟩
  · intro i t h
    rcases set_getElem_cases h with ⟨_, rfl⟩ | ⟨_, hold⟩
    · exact hns_new
    · exact hinv.noSched i t hold
  · intro j hj
    have hw := hinv.queueWaiting j hj
    have hne : tid ≠ j := by
      intro he
      subst he
      rw [htid] at hw
      cases hw
      cases hact_old
    rw [List.getElem?_set_ne hne]
    exact hw
  · exact fun i j hi hj => hinv.mutex i j (act_old i hi) (act_old j hj)
  · constructor
    · intro _
      exact ⟨tid, t_new, List.getElem?_set_self hlt, hact_new⟩
    · intro ⟨i, hi⟩
      exact hinv.refreshingIff.mpr ⟨i, act_old i hi⟩

/-- Preservation: the leader's refresh-token read returns (token present),
initiating the POST. -/
theorem inv_readDone {c : Config} {tid : Nat} (hinv : Inv c)
    (htid : c.tasks[tid]? = some .lReadWait) :
    Inv { c with posts := c.posts + 1, tasks := c.tasks.set tid .lRespWait } := by
  have hlt : tid < c.tasks.length := getElem_some_lt htid
  obtain ⟨hns, hqw, hmx, hiff⟩ := inv_leader_move .lRespWait hinv htid rfl rfl rfl
  refine ⟨hinv.storageSome, hns, hqw, hmx, hiff, ?_, ?_⟩
  · intro h0
    obtain ⟨hall, _⟩ := hinv.zeroElections h0
    exact absurd (hall tid _ htid) (by intro habs; cases habs)
  · intro h1
    obtain ⟨hothers, hposts, hnodone⟩ := oneElection_leader hinv h1 htid rfl
    have hp0 : c.posts = 0 := by
      rcases hposts with ⟨_, hp⟩ | ⟨hpl, _⟩
      · exact hp
      · cases hpl
    refine ⟨tid, .lRespWait, List.getElem?_set_self hlt, Or.inl rfl, ?_,
      Or.inr ⟨rfl, show c.posts + 1 = 1 by omega⟩, ?_⟩
    · intro j t hjne h
      rcases set_getElem_cases h with ⟨he, _⟩ | ⟨_, hold⟩
      · exact absurd he hjne
      · exact hothers j t hjne hold
    · intro j r hjne h
      rcases set_getElem_cases h with ⟨he, _⟩ | ⟨_, hold⟩
      · exact absurd he hjne
      · exact absurd (hnodone j r hjne hold) not_false

/-- Preservation: the in-flight POST completes; on success the leader moves
to the write phase, on failure straight to `lFin none`. -/
theorem inv_respDone {c : Config} {tid : Nat} {t_new : TaskState} (hinv : Inv c)
    (htid : c.tasks[tid]? = some .lRespWait)
    (hact_new : t_new.isActiveLeader = true)
    (hns_new : t_new.isSchedulerTask = false)
    (hposted_new : t_new.isPostedLeader = true) :
    Inv { c with tasks := c.tasks.set tid t_new } := by
  have hlt : tid < c.tasks.length := getElem_some_lt htid
  obtain ⟨hns, hqw, hmx, hiff⟩ := inv_leader_move t_new hinv htid rfl hact_new hns_new
  refine ⟨hinv.storageSome, hns, hqw, hmx, hiff, ?_, ?_⟩
  · intro h0
    obtain ⟨hall, _⟩ := hinv.zeroElections h0
    exact absurd (hall tid _ htid) (by intro habs; cases habs)
  · intro h1
    obtain ⟨hothers, hposts, hnodone⟩ := oneElection_leader hinv h1 htid rfl
    have hp1 : c.posts = 1 := by
      rcases hposts with ⟨habs, _⟩ | ⟨_, hp⟩
      · cases habs
      · exact hp
    refine ⟨tid, t_new, List.getElem?_set_self hlt, Or.inl hact_new, ?_,
      Or.inr ⟨hposted_new, hp1⟩, ?_⟩
    · intro j t hjne h
      rcases set_getElem_cases h with ⟨he, _⟩ | ⟨_, hold⟩
      · exact absurd he hjne
      · exact hothers j t hjne hold
    · intro j r hjne h
      rcases set_getElem_cases h with ⟨he, _⟩ | ⟨_, hold⟩
      · exact absurd he hjne
      · exact absurd (hnodone j r hjne hold) not_false

/-- Preservation: the rotated tokens are persisted; the leader resolves with
the new access token. -/
theorem inv_writeDone {c : Config} {tid : Nat} {a r : String} (hinv : Inv c)
    (htid : c.tasks[tid]? = some (.lWriteWait a r)) :
    Inv { c with storageAccess := some a, storageRefresh := some r,
                 tasks := c.tasks.set tid (.lFin (some a)) } := by
  have hlt : tid < c.tasks.length := getElem_some_lt htid
  obtain ⟨hns, hqw, hmx, hiff⟩ := inv_leader_move (.lFin (some a)) hinv htid rfl rfl rfl
  refine ⟨rfl, hns, hqw, hmx, hiff, ?_, ?_⟩
  · intro h0
    obtain ⟨hall, _⟩ := hinv.zeroElections h0
    exact absurd (hall tid _ htid) (by intro habs; cases habs)
  · intro h1
    obtain ⟨hothers, hposts, hnodone⟩ := oneElection_leader hinv h1 htid rfl
    have hp1 : c.posts = 1 := by
      rcases hposts with ⟨habs, _⟩ | ⟨_, hp⟩
      · cases habs
      · exact hp
    refine ⟨tid, .lFin (some a), List.getElem?_set_self hlt, Or.inl rfl, ?_,
      Or.inr ⟨rfl, hp1⟩, ?_⟩
    · intro j t hjne h
      rcases set_getElem_cases h with ⟨he, _⟩ | ⟨_, hold⟩
      · exact absurd he hjne
      · exact hothers j t hjne hold
    · intro j r2 hjne h
      rcases set_getElem_cases h with ⟨he, _⟩ | ⟨_, hold⟩
      · exact absurd he hjne
      · exact absurd (hnodone j r2 hjne hold) not_false

theorem length_foldl_set (q : List Nat) (l : List TaskState) (res : Option String) :
    (q.foldl (fun ts j => ts.set j (TaskState.done res)) l).length = l.length := by
  induction q generalizing l with
  | nil => rfl
  | cons k q ih =>
    simp only [List.foldl_cons]
    rw [ih, List.length_set]

/-- Preservation: `processQueue` resolves every waiter with the leader's
result, the queue empties, and `isRefreshing` drops (all in one synchronous
continuation). -/
theorem inv_finDone {c : Config} {tid : Nat} {res : Option String} (hinv : Inv c)
    (htid : c.tasks[tid]? = some (.lFin res)) :
    Inv { c with isRefreshing := false, failedQueue := [],
                 tasks := (c.failedQueue.foldl (fun ts j => ts.set j (.done res))
                            c.tasks).set tid (.doneLeader res) } := by
  have hlt : tid < c.tasks.length := getElem_some_lt htid
  have hresolved : ∀ (i : Nat) (t : TaskState),
      ((c.failedQueue.foldl (fun ts j => ts.set j (.done res)) c.tasks).set tid
        (.doneLeader res))[i]? = some t →
      (i = tid ∧ t = .doneLeader res) ∨
      (i ≠ tid ∧ i ∈ c.failedQueue ∧ t = .done res) ∨
      (i ≠ tid ∧ i ∉ c.failedQueue ∧ c.tasks[i]? = some t) := by
    intro i t h
    rcases set_getElem_cases h with ⟨he, rfl⟩ | ⟨hne, hold⟩
    · exact Or.inl ⟨he, rfl⟩
    · rw [foldl_resolve_getElem] at hold
      split at hold
      · rename_i hcond
        exact Or.inr (Or.inl ⟨hne, hcond.1, (Option.some.inj hold).symm⟩)
      · rename_i hcond
        by_cases hm : i ∈ c.failedQueue
        · exact absurd ⟨hm, getElem_some_lt hold⟩ hcond
        · exact Or.inr (Or.inr ⟨hne, hm, hold⟩)
  have hnoact : ∀ i, ¬activeIn
      (((c.failedQueue.foldl (fun ts j => ts.set j (.done res)) c.tasks).set tid
        (.doneLeader res))) i := by
    rintro i ⟨t, h, hact⟩
    rcases hresolved i t h with ⟨_, rfl⟩ | ⟨_, _, rfl⟩ | ⟨hne, _, hold⟩
    · cases hact
    · cases hact
    · exact hne (hinv.mutex i tid ⟨t, hold, hact⟩ ⟨.lFin res, htid, rfl⟩)
  refine ⟨hinv.storageSome, ?_, ?_, ?_, ?_, ?_, ?_⟩
  · intro i t h
    rcases hresolved i t h with ⟨_, rfl⟩ | ⟨_, _, rfl⟩ | ⟨_, _, hold⟩
    · rfl
    · rfl
    · exact hinv.noSched i t hold
  · intro j hj
    cases hj
  · exact fun i j hi _ => absurd hi (hnoact i)
  · constructor
    · intro h
      exact absurd h Bool.false_ne_true
    · rintro ⟨i, hi⟩
      exact absurd hi (hnoact i)
  · intro h0
    obtain ⟨hall, _⟩ := hinv.zeroElections h0
    exact absurd (hall tid _ htid) (by intro habs; cases habs)
  · intro h1
    obtain ⟨hothers, hposts, hnodone⟩ := oneElection_leader hinv h1 htid rfl
    have hp1 : c.posts = 1 := by
      rcases hposts with ⟨habs, _⟩ | ⟨_, hp⟩
      · cases habs
      · exact hp
    have hself : (((c.failedQueue.foldl (fun ts j => ts.set j (.done res)) c.tasks).set tid
        (.doneLeader res)))[tid]? = some (.doneLeader res) := by
      apply List.getElem?_set_self
      rw [length_foldl_set]
      exact hlt
    refine ⟨tid, .doneLeader res, hself, Or.inr ⟨res, rfl⟩, ?_, Or.inr ⟨rfl, hp1⟩, ?_⟩
    · intro j t hjne h
      rcases hresolved j t h with ⟨he, _⟩ | ⟨_, _, rfl⟩ | ⟨_, _, hold⟩
      · exact absurd he hjne
      · exact Or.inr (Or.inr ⟨res, rfl⟩)
      · exact hothers j t hjne hold
    · intro j r hjne h
      rcases hresolved j _ h with ⟨he, _⟩ | ⟨_, _, hdr⟩ | ⟨_, _, hold⟩
      · exact absurd he hjne
      · exact ⟨res, rfl, TaskState.done.inj hdr⟩
      · exact absurd (hnodone j r hjne hold) not_false

/-- Every step preserves the invariant. -/
theorem inv_applyStep {c c2 : Config} {s : StepCmd} (hinv : Inv c)
    (hstep : applyStep c s = some c2) : Inv c2 := by
  cases s with
  | start tid =>
    simp only [applyStep] at hstep
    split at hstep
    · rename_i htid
      split at hstep
      · rename_i hir
        cases hstep
        exact inv_start_join hinv htid hir
      · rename_i hir
        cases hstep
        exact inv_start_lead hinv htid hir
    · exact Option.noConfusion hstep
  | readDone tid =>
    simp only [applyStep] at hstep
    split at hstep
    · rename_i htid
      split at hstep
      · rename_i hsr
        have hs := hinv.storageSome
        rw [hsr] at hs
        exact Bool.noConfusion hs
      · cases hstep
        exact inv_readDone hinv htid
    · exact Option.noConfusion hstep
  | respDone tid resp =>
    simp only [applyStep] at hstep
    split at hstep
    · rename_i htid
      split at hstep
      · cases hstep
        exact inv_respDone hinv htid rfl rfl rfl
      · cases hstep
        exact inv_respDone hinv htid rfl rfl rfl
    · exact Option.noConfusion hstep
  | writeDone tid =>
    simp only [applyStep] at hstep
    split at hstep
    · rename_i a r htid
      cases hstep
      exact inv_writeDone hinv htid
    · exact Option.noConfusion hstep
  | finDone tid =>
    simp only [applyStep] at hstep
    split at hstep
    · rename_i res htid
      cases hstep
      exact inv_finDone hinv htid
    · exact Option.noConfusion hstep
  | sStartStep tid =>
    simp only [applyStep] at hstep
    split at hstep
    · rename_i htid
      exact Bool.noConfusion (hinv.noSched tid _ htid)
    · exact Option.noConfusion hstep
  | sReadDone tid =>
    simp only [applyStep] at hstep
    split at hstep
    · rename_i htid
      exact Bool.noConfusion (hinv.noSched tid _ htid)
    · exact Option.noConfusion hstep
  | sRespDone tid resp =>
    simp only [applyStep] at hstep
    split at hstep
    · rename_i htid
      exact Bool.noConfusion (hinv.noSched tid _ htid)
    · exact Option.noConfusion hstep

/-- The invariant holds along every run. -/
theorem inv_run {script : List StepCmd} :
    ∀ {c0 c : Config}, Inv c0 → run c0 script = some c → Inv c := by
  induction script with
  | nil =>
    intro c0 c h hr
    cases hr
    exact h
  | cons s rest ih =>
    intro c0 c h hr
    simp only [run] at hr
    split at hr
    · exact Option.noConfusion hr
    · rename_i next hnext
      exact ih (inv_applyStep h hnext) hr

theorem result_of_active {t : TaskState} (h : t.isActiveLeader = true) :
    t.result? = none := by
  cases t <;> first | rfl | cases h

/-- C1 (amended): in every run of `n` concurrent `handleTokenRefresh` callers
(request- or response-interceptor initiated), at most one coordinated refresh
is in flight at any reachable state; and in every completed run in which
exactly one caller found the coordinator idle (`elections = 1`, i.e. all the
others triggered while a refresh was already in flight), exactly one
`POST /auth/refresh` occurred and every caller observed the identical
outcome.  The proactive scheduler's timer is NOT serialized through this
coordinator (see `scheduler_double_post_cex`). -/
theorem refresh_mutual_exclusion_amended
    (script : List StepCmd) (c : Config) (n : Nat) (a0 r0 : String)
    (hrun : run (initConfig n a0 r0) script = some c) :
    (∀ i j, activeIn c.tasks i → activeIn c.tasks j → i = j) ∧
    (c.elections = 1 → (∀ t ∈ c.tasks, t.result?.isSome = true) →
      c.posts = 1 ∧ ∃ r, ∀ t ∈ c.tasks, t.result? = some r) := by
  have hinv := inv_run (inv_initConfig n a0 r0) hrun
  refine ⟨hinv.mutex, ?_⟩
  intro h1 hall
  obtain ⟨l0, t0, hl0, hlead, hothers, hposts, hdone⟩ := hinv.oneElection h1
  have ht0mem : t0 ∈ c.tasks := List.getElem?_mem hl0
  have ht0some := hall t0 ht0mem
  obtain ⟨rr, ht0⟩ : ∃ r, t0 = .doneLeader r := by
    rcases hlead with hact | h
    · rw [result_of_active hact] at ht0some
      exact Bool.noConfusion ht0some
    · exact h
  subst ht0
  have hp1 : c.posts = 1 := by
    rcases hposts with ⟨habs, _⟩ | ⟨_, hp⟩
    · cases habs
    · exact hp
  refine ⟨hp1, rr, ?_⟩
  intro t htmem
  obtain ⟨j, hj⟩ := List.mem_iff_getElem?.mp htmem
  by_cases hjl : j = l0
  · subst hjl
    rw [hl0] at hj
    cases hj
    rfl
  · rcases hothers j t hjl hj with rfl | rfl | ⟨r, rfl⟩
    · exact Bool.noConfusion (hall _ htmem)
    · exact Bool.noConfusion (hall _ htmem)
    · obtain ⟨r2, he, hr⟩ := hdone j r hjl hj
      injection he with he2
      subst he2
      subst hr
      rfl

def witnessScript : List StepCmd :=
  [.start 0, .start 1, .readDone 0, .respDone 0 (some (("newAccess"), ("newRefresh"))),
   .writeDone 0, .finDone 0]

def witnessFinal : Config :=
  { isRefreshing := false, failedQueue := [], storageAccess := some ("newAccess"),
    storageRefresh := some ("newRefresh"), posts := 1, elections := 1,
    tasks := [.doneLeader (some ("newAccess")), .done (some ("newAccess"))] }

/-- Witness for C1 (amended): two concurrent callers, the second joining
while the first's refresh is in flight; one POST, both observe the rotated
access token. -/
theorem refresh_mutual_exclusion_amended_witness :
    run (initConfig 2 ("a0") ("rt0")) witnessScript = some witnessFinal ∧
    witnessFinal.posts = 1 ∧
    (∃ r, ∀ t ∈ witnessFinal.tasks, t.result? = some r) := by
  have hrun : run (initConfig 2 ("a0") ("rt0")) witnessScript = some witnessFinal := by
    decide
  have h := refresh_mutual_exclusion_amended witnessScript witnessFinal 2 ("a0") ("rt0") hrun
  have h2 := h.2 (by decide) (by decide)
  exact ⟨hrun, h2.1, h2.2⟩

def schedulerInit : Config :=
  { isRefreshing := false, failedQueue := [], storageAccess := some ("a0"),
    storageRefresh := some ("rt0"), posts := 0, elections := 0,
    tasks := [.start, .sStart] }

def schedulerMid : Config :=
  { isRefreshing := true, failedQueue := [], storageAccess := some ("a0"),
    storageRefresh := some ("rt0"), posts := 1, elections := 1,
    tasks := [.lRespWait, .sReadWait] }

def schedulerFinal : Config :=
  { isRefreshing := false, failedQueue := [], storageAccess := some ("a2"),
    storageRefresh := some ("r2"), posts := 2, elections := 1,
    tasks := [.doneLeader (some ("a1")), .sDone] }

/-- Counterexample to C1 as stated: one interceptor caller (task 0) and the
proactive scheduler's timer (task 1) both trigger a refresh; the timer issues
its POST while the coordinator's round-trip is still in flight (task 0 in
`lRespWait`), because the timer callback posts directly instead of calling
`handleTokenRefresh`.  The completed interleaving performs TWO POSTs to
/auth/refresh, not one. -/
theorem scheduler_double_post_cex :
    run schedulerInit [.start 0, .readDone 0, .sStartStep 1] = some schedulerMid ∧
    schedulerMid.posts = 1 ∧
    schedulerMid.tasks[0]? = some .lRespWait ∧
    applyStep schedulerMid (.sReadDone 1) =
      some { schedulerMid with posts := 2, tasks := [.lRespWait, .sRespWait] } ∧
    run schedulerInit
      [.start 0, .readDone 0, .sStartStep 1, .sReadDone 1,
       .respDone 0 (some (("a1"), ("r1"))), .writeDone 0, .finDone 0,
       .sRespDone 1 (some (("a2"), ("r2")))] = some schedulerFinal ∧
    schedulerFinal.posts = 2 := by
  refine ⟨by decide, rfl, by decide, by decide, by decide, rfl⟩

/-- C5: a failed refresh (missing refresh credential, network error, or
server rejection) resolves `null` without touching persisted state: the two
failure paths of `refreshAccessToken` return `(none, st)` with `st`
unchanged, and the coordinator's `processQueue` step for a leader holding
result `none` resolves the leader and every queued waiter with `none` while
leaving both storage fields exactly as they were. -/
theorem refresh_failure_null_no_clear :
    (∀ (st : Storage) (resp : Option (String × String)),
      st.refreshToken = none → refreshAccessToken st resp = (none, st)) ∧
    (∀ (st : Storage), refreshAccessToken st none = (none, st)) ∧
    (∀ (c : Config) (tid : Nat) (c2 : Config),
      c.tasks[tid]? = some (.lFin none) → applyStep c (.finDone tid) = some c2 →
      c2.storageAccess = c.storageAccess ∧ c2.storageRefresh = c.storageRefresh ∧
      c2.tasks[tid]? = some (.doneLeader none) ∧
      ∀ j ∈ c.failedQueue, j ≠ tid → j < c.tasks.length →
        c2.tasks[j]? = some (.done none)) := by
  refine ⟨?_, ?_, ?_⟩
  · intro st resp h
    simp [refreshAccessToken, h]
  · intro st
    cases h : st.refreshToken <;> simp [refreshAccessToken, h]
  · intro c tid c2 htid hstep
    have hcalc : applyStep c (.finDone tid) =
        some { c with
                isRefreshing := false
                failedQueue := []
                tasks := (c.failedQueue.foldl (fun ts j => ts.set j (.done none))
                  c.tasks).set tid (.doneLeader none) } := by
      simp [applyStep, htid]
    rw [hcalc] at hstep
    cases hstep
    refine ⟨rfl, rfl, ?_, ?_⟩
    · apply List.getElem?_set_self
      rw [length_foldl_set]
      exact getElem_some_lt htid
    · intro j hj hne hlt
      rw [List.getElem?_set_ne (fun he => hne he.symm), foldl_resolve_getElem]
      simp [hj, hlt]

def failInit : Config :=
  { isRefreshing := true, failedQueue := [1], storageAccess := some ("a0"),
    storageRefresh := some ("rt0"), posts := 1, elections := 1,
    tasks := [.lFin none, .waiting] }

def failFinal : Config :=
  { isRefreshing := false, failedQueue := [], storageAccess := some ("a0"),
    storageRefresh := some ("rt0"), posts := 1, elections := 1,
    tasks := [.doneLeader none, .done none] }

/-- Witness for C5: no stored refresh credential yields `(null, st)` with the
storage untouched, and a concrete `processQueue` step resolves the leader and
the queued waiter with `null`, storage unchanged. -/
theorem refresh_failure_null_no_clear_witness :
    refreshAccessToken ⟨some ("a"), none, some ("u")⟩ (some (("x"), ("y"))) =
      (none, ⟨some ("a"), none, some ("u")⟩) ∧
    failFinal.storageAccess = failInit.storageAccess ∧
    failFinal.storageRefresh = failInit.storageRefresh ∧
    failFinal.tasks[0]? = some (.doneLeader none) ∧
    failFinal.tasks[1]? = some (.done none) := by
  have h := refresh_failure_null_no_clear
  have h3 := h.2.2 failInit 0 failFinal (by decide) (by decide)
  refine ⟨h.1 _ _ rfl, h3.1, h3.2.1, h3.2.2.1, ?_⟩
  exact h3.2.2.2 1 (by decide) (by decide) (by decide)

/-! ## Claim theorems on the interceptors, scheduler, sign-out and token clock -/

/-- C2 (amended): a 401 (indeed any error status) on a request whose URL
contains the fragment `/auth/` — which covers the allow-listed
`/auth/login`, `/auth/register` and `/auth/refresh` — never triggers the
refresh-and-retry flow and never clears session state or fires the
invalidation callback: the original failure propagates directly.  The fourth
allow-listed endpoint `/health` is NOT exempted by the response interceptor
(see `health_401_triggers_refresh_cex`). -/
theorem auth_url_401_propagates (cfg : ReqConfig) (status : Nat) (rr : Option String)
    (h : jsIncludesOpt cfg.url ("/auth/") = true) :
    responseInterceptor cfg status rr = ([], .rejectOriginal) := by
  by_cases h1 : (status == 401 && !cfg._retry) = true
  · simp [responseInterceptor, h1, h]
  · simp [responseInterceptor, h1]

/-- Witness for C2 (amended): a 401 from `/auth/login` propagates directly. -/
theorem auth_url_401_propagates_witness :
    responseInterceptor ⟨some ("/auth/login"), none, false⟩ 401 (some ("t")) =
      ([], .rejectOriginal) ∧
    ("/auth/login") ∈ PUBLIC_ENDPOINTS := by
  exact ⟨auth_url_401_propagates _ _ _ (by decide), by decide⟩

/-- Counterexample to C2 as stated: `/health` is allow-listed
(`isPublicEndpoint` accepts it), yet a 401 from it DOES trigger the
refresh-and-retry flow, and session invalidation when the refresh fails,
because the response interceptor only exempts URLs containing `/auth/`. -/
theorem health_401_triggers_refresh_cex :
    isPublicEndpoint (some ("/health")) = true ∧
    responseInterceptor ⟨some ("/health"), none, false⟩ 401 (some ("tok")) =
      ([.markRetry, .refreshAttempt,
        .retryRequest ⟨some ("/health"), some ("Bearer tok"), true⟩],
       .retried ⟨some ("/health"), some ("Bearer tok"), true⟩) ∧
    responseInterceptor ⟨some ("/health"), none, false⟩ 401 none =
      ([.markRetry, .refreshAttempt, .clearAuth, .authFailureCallback],
       .rejectOriginal) := by
  decide

/-- C3: single retry.  (1) A request already marked `_retry` is never
re-issued on a further 401 — the failure propagates with no refresh and no
retry.  (2) Whenever the 401 handler attempts a refresh, the retry marker was
set first (the action list begins `markRetry, refreshAttempt`).  (3) The
re-issued request carries `_retry = true`, so a second 401 after a successful
refresh propagates without another retry: no loop. -/
theorem single_retry :
    (∀ (cfg : ReqConfig) (rr : Option String), cfg._retry = true →
      responseInterceptor cfg 401 rr = ([], .rejectOriginal)) ∧
    (∀ (cfg : ReqConfig) (status : Nat) (rr : Option String),
      RespAction.refreshAttempt ∈ (responseInterceptor cfg status rr).1 →
      (responseInterceptor cfg status rr).1.take 2 = [.markRetry, .refreshAttempt]) ∧
    (∀ (cfg : ReqConfig) (status : Nat) (rr rr2 : Option String) (cfg2 : ReqConfig),
      (responseInterceptor cfg status rr).2 = .retried cfg2 →
      cfg2._retry = true ∧ responseInterceptor cfg2 401 rr2 = ([], .rejectOriginal)) := by
  refine ⟨?_, ?_, ?_⟩
  · intro cfg rr h
    simp [responseInterceptor, h]
  · intro cfg status rr hmem
    by_cases h1 : (status == 401 && !cfg._retry) = true
    · by_cases h2 : jsIncludesOpt cfg.url ("/auth/") = true
      · simp [responseInterceptor, h1, h2] at hmem
      · cases rr <;> simp [responseInterceptor, h1, h2]
    · simp [responseInterceptor, h1] at hmem
  · intro cfg status rr rr2 cfg2 hout
    by_cases h1 : (status == 401 && !cfg._retry) = true
    · by_cases h2 : jsIncludesOpt cfg.url ("/auth/") = true
      · rw [show responseInterceptor cfg status rr = ([], .rejectOriginal) by
          simp [responseInterceptor, h1, h2]] at hout
        exact RespOutcome.noConfusion hout
      · cases rr with
        | none =>
          rw [show responseInterceptor cfg status none =
              ([.markRetry, .refreshAttempt, .clearAuth, .authFailureCallback],
               .rejectOriginal) by simp [responseInterceptor, h1, h2]] at hout
          exact RespOutcome.noConfusion hout
        | some newToken =>
          have hred : responseInterceptor cfg status (some newToken) =
              ([.markRetry, .refreshAttempt, .retryRequest { cfg with _retry := true, authorization := some (("Bearer ") ++ newToken) }], .retried { cfg with _retry := true, authorization := some (("Bearer ") ++ newToken) }) := by
            simp [responseInterceptor, h1, h2]
          rw [hred] at hout
          injection hout with hout2
          subst hout2
          exact ⟨rfl, by simp [responseInterceptor]⟩
    · rw [show responseInterceptor cfg status rr = ([], .rejectOriginal) by
        simp [responseInterceptor, h1]] at hout
      exact RespOutcome.noConfusion hout

/-- Witness for C3: a protected request 401s, is retried once with the new
bearer token and `_retry` set, and a second 401 on the retried request
propagates without another refresh or retry. -/
theorem single_retry_witness :
    (responseInterceptor ⟨some ("/users/me"), none, false⟩ 401 (some ("tok2"))).1.take 2 =
      [.markRetry, .refreshAttempt] ∧
    (⟨some ("/users/me"), some (("Bearer ") ++ ("tok2")), true⟩ : ReqConfig)._retry = true ∧
    responseInterceptor ⟨some ("/users/me"), some (("Bearer ") ++ ("tok2")), true⟩ 401
      (some ("tok3")) = ([], .rejectOriginal) := by
  have h2 := single_retry.2.1 ⟨some ("/users/me"), none, false⟩ 401 (some ("tok2"))
    (by decide)
  have h3 := single_retry.2.2 ⟨some ("/users/me"), none, false⟩ 401 (some ("tok2"))
    (some ("tok3")) ⟨some ("/users/me"), some (("Bearer ") ++ ("tok2")), true⟩ (by decide)
  exact ⟨h2, h3.1, h3.2⟩

/-- C4 (amended): for a not-yet-retried request whose URL does not contain
`/auth/` (rather than every non-allow-listed request), a 401 whose refresh
yields `null` makes the interceptor mark the retry, attempt the refresh,
clear all three persisted keys, invoke the session-invalidated callback, and
propagate the ORIGINAL failure.  (A non-allow-listed URL containing
`/auth/`, such as `/auth/logout`, instead propagates directly with no
clearing: see `logout_401_no_clear_cex`.) -/
theorem refresh_null_clears_session (cfg : ReqConfig) (st : Storage)
    (h1 : cfg._retry = false) (h2 : jsIncludesOpt cfg.url ("/auth/") = false) :
    responseInterceptor cfg 401 none =
      ([.markRetry, .refreshAttempt, .clearAuth, .authFailureCallback],
       .rejectOriginal) ∧
    clearAuthStorage st = ⟨none, none, none⟩ := by
  constructor
  · simp [responseInterceptor, h1, h2]
  · rfl

/-- Witness for C4 (amended) at `/users/me` with a fully populated store. -/
theorem refresh_null_clears_session_witness :
    responseInterceptor ⟨some ("/users/me"), some (("Bearer old")), false⟩ 401 none =
      ([.markRetry, .refreshAttempt, .clearAuth, .authFailureCallback],
       .rejectOriginal) ∧
    clearAuthStorage ⟨some ("a"), some ("r"), some ("u")⟩ = ⟨none, none, none⟩ := by
  exact refresh_null_clears_session ⟨some ("/users/me"), some (("Bearer old")), false⟩
    ⟨some ("a"), some ("r"), some ("u")⟩ (by decide) (by decide)

/-- Counterexample to C4 as stated: `/auth/logout` is NOT allow-listed, yet a
401 on it with a failing refresh performs no session clearing and no
callback — the interceptor's `/auth/` test short-circuits first. -/
theorem logout_401_no_clear_cex :
    isPublicEndpoint (some ("/auth/logout")) = false ∧
    responseInterceptor ⟨some ("/auth/logout"), none, false⟩ 401 none =
      ([], .rejectOriginal) := by
  decide

/-- C6: `signOut` always leaves the device unauthenticated, whether or not
the backend logout call fails: the refresh timer is cancelled, all three
persisted keys end up absent, and the in-memory session state is cleared. -/
theorem signOut_always_unauthenticated (st : AuthState) (logoutFails : Bool) :
    (signOut st logoutFails).1.refreshTimer = none ∧
    (signOut st logoutFails).1.storage.accessToken = none ∧
    (signOut st logoutFails).1.storage.refreshToken = none ∧
    (signOut st logoutFails).1.storage.userData = none ∧
    (signOut st logoutFails).1.stateAccessToken = none ∧
    (signOut st logoutFails).1.stateRefreshToken = none ∧
    (signOut st logoutFails).1.stateUserEmail = none := by
  simp [signOut, clearAuthStorage]

/-- A JSON value with a member can only be an object, and objects are truthy. -/
theorem jsFalsy_of_lookup {j : Json} {key : String} {v : Json}
    (h : jsonLookup j key = some v) : jsFalsy j = false := by
  cases j <;> first | rfl | exact Option.noConfusion h

theorem if_pos_max (x : Int) : (if x > 0 then x else 0) = max x 0 := by
  rcases le_or_lt x 0 with h | h
  · rw [if_neg (by omega), max_eq_right h]
  · rw [if_pos h, max_eq_left (by omega)]

/-- C7: for every token whose payload decodes with an embedded integer expiry
`e` (seconds), `isTokenExpired` returns true exactly when the buffered
remaining lifetime `max(expiry - now - buffer, 0)` is zero; in particular it
is true at `expiry = now + 30s` with a 60s buffer and false at
`expiry = now + 120s` with a 60s buffer. -/
theorem isTokenExpired_buffered_remaining (token : String) (j : Json)
    (e now bufferSeconds : Int)
    (hdec : decodeJWT token = some j)
    (hexp : jsonLookup j ("exp") = some (.num e))
    (hnow : 0 ≤ now) (hbuf : 0 ≤ bufferSeconds) :
    (isTokenExpired token bufferSeconds now = true ↔
      max (e * 1000 - now - bufferSeconds * 1000) 0 = 0) ∧
    (bufferSeconds = 60 → e * 1000 = now + 30000 →
      isTokenExpired token bufferSeconds now = true) ∧
    (bufferSeconds = 60 → e * 1000 = now + 120000 →
      isTokenExpired token bufferSeconds now = false) := by
  have hfals : jsFalsy j = false := jsFalsy_of_lookup hexp
  have hcore : isTokenExpired token bufferSeconds now =
      (if e == 0 then true else decide (now ≥ e * 1000 - bufferSeconds * 1000)) := by
    simp only [isTokenExpired, hdec, hfals, hexp, Bool.false_eq_true, if_false]
    rfl
  by_cases he : e = 0
  · subst he
    have h0 : isTokenExpired token bufferSeconds now = true := by
      rw [hcore, if_pos ((by decide : ((0 : Int) == 0) = true))]
    refine ⟨?_, ?_, ?_⟩
    · rw [h0, max_eq_right_iff]
      exact ⟨fun _ => by omega, fun _ => rfl⟩
    · exact fun _ _ => h0
    · intro _ habs
      exfalso
      omega
  · have hcore2 : isTokenExpired token bufferSeconds now =
        decide (now ≥ e * 1000 - bufferSeconds * 1000) := by
      rw [hcore, if_neg (by simpa using he)]
    refine ⟨?_, ?_, ?_⟩
    · rw [hcore2, max_eq_right_iff, decide_eq_true_eq]
      constructor <;> (intro h2; omega)
    · intro hb he30
      rw [hcore2, decide_eq_true_eq]
      omega
    · intro hb he120
      rw [hcore2, decide_eq_false_iff_not]
      omega

def jwtW : String := "h.eyJleHAiOjIwMDB9.s"

/-- Witness for C7: a token with payload expiry 2000s; at `now` 30s before
expiry with a 60s buffer it is near-expiry, at 120s before it is not. -/
theorem isTokenExpired_buffered_remaining_witness :
    isTokenExpired jwtW 60 1970000 = true ∧ isTokenExpired jwtW 60 1880000 = false := by
  have h1 := isTokenExpired_buffered_remaining jwtW (Json.obj [(("exp"), Json.num 2000)])
    2000 1970000 60 (by rfl) (by rfl) (by decide) (by decide)
  have h2 := isTokenExpired_buffered_remaining jwtW (Json.obj [(("exp"), Json.num 2000)])
    2000 1880000 60 (by rfl) (by rfl) (by decide) (by decide)
  exact ⟨h1.2.1 rfl (by decide), h2.2.2 rfl (by decide)⟩

/-- C8: fail-soft token clock.  A string that does not split into exactly
three dot-separated segments decodes to `null` (never a thrown error, every
decoding failure is `none`), and every token whose decode fails is reported
expired by `isTokenExpired`. -/
theorem decodeJWT_fail_soft (token : String) (bufferSeconds now : Int) :
    ((splitOnDot token.data).length ≠ 3 → decodeJWT token = none) ∧
    (decodeJWT token = none → isTokenExpired token bufferSeconds now = true) := by
  constructor
  · intro h
    simp [decodeJWT, h]
  · intro h
    simp [isTokenExpired, h]

/-- Witness for C8: a dotless string yields `null` and reads as expired. -/
theorem decodeJWT_fail_soft_witness :
    decodeJWT ("not-a-jwt") = none ∧ isTokenExpired ("not-a-jwt") 60 0 = true := by
  have h := decodeJWT_fail_soft ("not-a-jwt") 60 0
  have h1 := h.1 (by decide)
  exact ⟨h1, h.2 h1⟩

/-- C9: arming the proactive refresh timer.  For a current access credential
with embedded integer expiry `e`, `scheduleTokenRefresh` (invoked on sign-in,
on sign-up via sign-in, on every timer-driven refresh success, and from the
access-token effect) first cancels any pending timer and then arms a one-shot
timer for exactly `max(timeUntilExpiry - 60000, 10000)` ms, where
`timeUntilExpiry = max(expiry - now, 0)`. -/
theorem scheduleTokenRefresh_delay (refreshTimer : Option Int) (token : String)
    (j : Json) (e now : Int)
    (hdec : decodeJWT token = some j)
    (hexp : jsonLookup j ("exp") = some (.num e))
    (hnow : 0 ≤ now) :
    scheduleTokenRefresh refreshTimer token now =
      ((match refreshTimer with
        | some _ => [TimerAction.cancel]
        | none => []) ++ [TimerAction.arm (max (max (e * 1000 - now) 0 - 60000) 10000)],
       some (max (max (e * 1000 - now) 0 - 60000) 10000)) := by
  have hfals : jsFalsy j = false := jsFalsy_of_lookup hexp
  have hget : getTokenExpirationTime token now = max (e * 1000 - now) 0 := by
    have hcore : getTokenExpirationTime token now =
        (if e == 0 then 0 else if e * 1000 - now > 0 then e * 1000 - now else 0) := by
      simp only [getTokenExpirationTime, hdec, hfals, hexp, Bool.false_eq_true, if_false]
      rfl
    rw [hcore]
    by_cases he : e = 0
    · subst he
      rw [if_pos ((by decide : ((0 : Int) == 0) = true))]
      rw [max_eq_right (by omega : (0 : Int) * 1000 - now ≤ 0)]
    · rw [if_neg (by simpa using he), if_pos_max]
  simp only [scheduleTokenRefresh, hget]

/-- Witness for C9: a pending timer is cancelled and the new delay is
`max(2000000 - 0 - 60000, 10000) = 1940000` ms. -/
theorem scheduleTokenRefresh_delay_witness :
    scheduleTokenRefresh (some 5000) jwtW 0 =
      ([.cancel, .arm 1940000], some 1940000) := by
  have h := scheduleTokenRefresh_delay (some 5000) jwtW
    (Json.obj [(("exp"), Json.num 2000)]) 2000 0 (by rfl) (by rfl) (by decide)
  exact h.trans (by decide)

/-- C10: allow-list membership is substring containment.  `isPublicEndpoint`
accepts a URL exactly when it contains one of the four allow-listed fragments
as a contiguous substring (so any URL merely containing such a fragment is
bypassed too), an undefined URL is treated as protected, and a public request
passes through the request interceptor untouched with no proactive refresh. -/
theorem isPublicEndpoint_substring (u : String) (cfg : ReqConfig)
    (storedAccessToken : Option String) (now : Int) (refreshResult : Option String) :
    (isPublicEndpoint (some u) = true ↔
      ∃ p ∈ PUBLIC_ENDPOINTS, ∃ pre suf, u.data = pre ++ p.data ++ suf) ∧
    isPublicEndpoint none = false ∧
    (isPublicEndpoint cfg.url = true →
      requestInterceptor cfg storedAccessToken now refreshResult = ([], cfg)) := by
  refine ⟨?_, rfl, ?_⟩
  · simp only [isPublicEndpoint]
    by_cases hu : u.isEmpty
    · rw [if_pos hu]
      constructor
      · intro h
        exact absurd h Bool.false_ne_true
      · rintro ⟨p, hp, pre, suf, hd⟩
        exfalso
        have hu2 : u.data = [] := by
          have he := (String.isEmpty_iff u).mp hu
          rw [he]
        rw [hu2] at hd
        simp only [PUBLIC_ENDPOINTS, List.mem_cons, List.not_mem_nil, or_false] at hp
        rcases hp with rfl | rfl | rfl | rfl <;> simp at hd
    · rw [if_neg hu, List.any_eq_true]
      constructor
      · rintro ⟨p, hp, hinc⟩
        exact ⟨p, hp, (jsIncludes_iff u p).mp hinc⟩
      · rintro ⟨p, hp, hsub⟩
        exact ⟨p, hp, (jsIncludes_iff u p).mpr hsub⟩
  · intro h
    simp [requestInterceptor, h]

/-- Witness for C10: a URL merely containing the fragment `/auth/login` is
bypassed; an undefined URL is protected; a public request passes through the
request interceptor unmodified even with a stored token. -/
theorem isPublicEndpoint_substring_witness :
    isPublicEndpoint (some ("/x/auth/login/y")) = true ∧
    isPublicEndpoint none = false ∧
    requestInterceptor ⟨some ("/api/health"), none, false⟩ (some ("tok")) 0 none =
      ([], ⟨some ("/api/health"), none, false⟩) := by
  have h := isPublicEndpoint_substring ("/x/auth/login/y")
    ⟨some ("/api/health"), none, false⟩ (some ("tok")) 0 none
  refine ⟨h.1.mpr ⟨("/auth/login"), by decide, ("/x").data, ("/y").data, by decide⟩,
    h.2.1, h.2.2 (by decide)⟩

end DearAI
